import Mathlib

/-!
Verification of the `epco.juyo` scraper (file `epco_scraper.py`).

The Python method is shallowly embedded below.  Text is modelled as
`List Char`; raw HTTP bodies and ZIP-member payloads are modelled as
`List Nat` (byte values).  Library behaviour that the method calls into
(`str.splitlines`, `str.strip`, `"\n".join`, `urllib.parse.urljoin`,
`pathlib.Path`, `chardet.detect`, `bytes.decode`, `zipfile`, `requests`)
is either embedded directly (the pure string functions) or supplied as
an oracle record (`Oracles`) for the heuristic / IO parts, so that all
definitions stay executable and the control flow of `juyo` is modelled
exactly, including the order of its observable effects (HTTP GETs,
directory creation, file writes).
-/

namespace EpcoScraper

/-- Characters on which Python's `str.splitlines` breaks a line
(`\n`, `\r`, `\x0b`, `\x0c`, `\x1c`, `\x1d`, `\x1e`, `\x85`,
` `, ` `; `\r\n` is consumed as a single break). -/
def isLineBreak (c : Char) : Bool :=
  c = '\n' || c = '\r' || c = '\x0b' || c = '\x0c' ||
  c = '\x1c' || c = '\x1d' || c = '\x1e' || c = '\x85' ||
  c = ' ' || c = ' '

/-- Characters stripped by Python's `str.strip()` (exactly the characters
`c` with `c.isspace()` true: ASCII whitespace, the separator control
characters `\x1c`–`\x1f`, and the Unicode space characters). -/
def isPySpace (c : Char) : Bool :=
  c = ' ' || c = '\t' || c = '\n' || c = '\r' || c = '\x0b' || c = '\x0c' ||
  c = '\x1c' || c = '\x1d' || c = '\x1e' || c = '\x1f' ||
  c = '\x85' || c = '\xa0' || c = ' ' ||
  (0x2000 ≤ c.toNat && c.toNat ≤ 0x200a) ||
  c = ' ' || c = ' ' || c = ' ' || c = ' ' || c = '　'

/-- Worker for `splitlines`: `cur` holds the characters of the current
line in reverse.  A terminating line break emits the current line and a
trailing unterminated line is emitted only when non-empty, exactly as in
Python (`"a\n".splitlines() == ["a"]`, `"".splitlines() == []`). -/
def splitlinesAux : List Char → List Char → List (List Char)
  | [], cur => if cur.isEmpty then [] else [cur.reverse]
  | [c], cur =>
    if isLineBreak c then [cur.reverse]
    else [(c :: cur).reverse]
  | c :: c2 :: t, cur =>
    if isLineBreak c then
      if c = '\r' && c2 = '\n' then cur.reverse :: splitlinesAux t []
      else cur.reverse :: splitlinesAux (c2 :: t) []
    else splitlinesAux (c2 :: t) (c :: cur)

/-- Python's `text.splitlines()`. -/
def splitlines (cs : List Char) : List (List Char)  :=
  splitlinesAux cs []

/-- Python's `sep.join(lines)` for a one-character separator. -/
def joinSep (sep : Char) : List (List Char) → List Char
  | [] => []
  | [l] => l
  | l :: l2 :: ls => l ++ sep :: joinSep sep (l2 :: ls)

/-- Python's `line.strip()`: drop leading and trailing whitespace. -/
def pyStrip (l : List Char) : List Char :=
  ((l.dropWhile isPySpace).reverse.dropWhile isPySpace).reverse

/-- Truthiness of `line.strip()`: `true` when the line is blank
(empty or whitespace-only), i.e. when `line.strip()` is falsy. -/
def blankL (l : List Char) : Bool :=
  (pyStrip l).isEmpty

/-- The filter used at lines 79, 97 and 171 of the source:
`if line.strip()` keeps exactly the non-blank lines. -/
def keepLine (l : List Char) : Bool :=
  !blankL l

/-- Lines 79-80 / 97-98 / 171-172 of `epco_scraper.py`:
`"\n".join(line for line in text.splitlines() if line.strip()) + "\n"`. -/
def stripAllBlankLines (cs : List Char) : List Char :=
  joinSep '\n' ((splitlines cs).filter keepLine) ++ ['\n']

/-- The while-loop of lines 154-167 of `epco_scraper.py`, as a
recursion over the line list.  `blanks` counts the blank lines of the
run currently being scanned (the Python code scans a whole run with the
inner `while`; here the run is counted one line at a time, and flushed
when a non-blank line or the end of the list is reached): a run of
length `> 1` is re-emitted as that many empty lines
(`cleaned.extend([""] * (j - i))`), a run of length `1` is dropped. -/
def collapseGo : List (List Char) → Nat → List (List Char)
  | [], blanks => if blanks > 1 then List.replicate blanks [] else []
  | l :: ls, blanks =>
    if blankL l then collapseGo ls (blanks + 1)
    else (if blanks > 1 then List.replicate blanks [] else []) ++ l :: collapseGo ls 0

/-- Lines 150-168 of `epco_scraper.py` (the tokyo branch):
remove single blank lines, keep runs of consecutive blank lines,
then `"\n".join(cleaned) + "\n"`. -/
def collapseSingleBlankLines (cs : List Char) : List Char :=
  joinSep '\n' (collapseGo (splitlines cs) 0) ++ ['\n']

/-- A line produced by `splitlines` contains no line-break character. -/
def breakFree (l : List Char) : Prop :=
  ∀ c ∈ l, isLineBreak c = false

theorem splitlinesAux_newline (t cur : List Char) :
    splitlinesAux ('\n' :: t) cur = cur.reverse :: splitlinesAux t [] := by
  cases t with
  | nil => simp [splitlinesAux, isLineBreak]
  | cons c2 t2 => simp [splitlinesAux, isLineBreak]

theorem splitlinesAux_append_newline (l : List Char) :
    ∀ (cur t : List Char), breakFree l →
      splitlinesAux (l ++ '\n' :: t) cur = (cur.reverse ++ l) :: splitlinesAux t [] := by
  induction l with
  | nil =>
    intro cur t _
    simpa using splitlinesAux_newline t cur
  | cons c l ih =>
    intro cur t hbf
    have hc : isLineBreak c = false := hbf c (List.mem_cons_self c l)
    have hl : breakFree l := fun x hx => hbf x (List.mem_cons_of_mem c hx)
    cases l with
    | nil =>
      have := splitlinesAux_newline t (c :: cur)
      simp [splitlinesAux, hc] at this ⊢
      simpa using this
    | cons d l2 =>
      have := ih (c :: cur) t hl
      simp [splitlinesAux, hc]
      simpa using this

/-- Every line returned by `splitlinesAux` is break-free, provided the
accumulated current line is. -/
theorem splitlinesAux_breakFree :
    ∀ (cs cur : List Char), (∀ c ∈ cur, isLineBreak c = false) →
      ∀ l ∈ splitlinesAux cs cur, breakFree l
  | [], cur, hcur => by
    intro l hl
    simp only [splitlinesAux] at hl
    by_cases h : cur.isEmpty <;> simp [h] at hl
    subst hl
    intro c hc
    exact hcur c (List.mem_reverse.mp hc)
  | [c], cur, hcur => by
    intro l hl
    by_cases hc : isLineBreak c <;> simp [splitlinesAux, hc] at hl <;> subst hl
    · intro x hx
      exact hcur x (List.mem_reverse.mp hx)
    · intro x hx
      rcases List.mem_append.mp hx with h | h
      · exact hcur x (List.mem_reverse.mp h)
      · have hx2 : x = c := by simpa using h
        subst hx2
        simpa using hc
  | c :: c2 :: t, cur, hcur => by
    intro l hl
    by_cases hc : isLineBreak c
    · by_cases hrn : (c = '\r' && c2 = '\n') = true
      · simp [splitlinesAux, hc, hrn] at hl
        rcases hl with hl | hl
        · subst hl
          intro x hx
          exact hcur x (List.mem_reverse.mp hx)
        · exact splitlinesAux_breakFree t [] (by simp) l hl
      · simp [splitlinesAux, hc, hrn] at hl
        rcases hl with hl | hl
        · subst hl
          intro x hx
          exact hcur x (List.mem_reverse.mp hx)
        · exact splitlinesAux_breakFree (c2 :: t) [] (by simp) l hl
    · simp [splitlinesAux, hc] at hl
      refine splitlinesAux_breakFree (c2 :: t) (c :: cur) ?_ l hl
      intro x hx
      rcases List.mem_cons.mp hx with h | h
      · subst h
        simpa using hc
      · exact hcur x h

theorem splitlines_breakFree (cs : List Char) :
    ∀ l ∈ splitlines cs, breakFree l :=
  splitlinesAux_breakFree cs [] (by simp)

/-- Joining break-free lines with `"\n"` and appending a final `"\n"`
is undone exactly by `splitlines` (for a non-empty line list). -/
theorem splitlines_joinSep (ls : List (List Char)) (hne : ls ≠ [])
    (hbf : ∀ l ∈ ls, breakFree l) :
    splitlines (joinSep '\n' ls ++ ['\n']) = ls := by
  induction ls with
  | nil => exact absurd rfl hne
  | cons l ls ih =>
    cases ls with
    | nil =>
      show splitlinesAux (l ++ '\n' :: []) [] = [l]
      rw [splitlinesAux_append_newline l [] [] (hbf l (by simp))]
      simp [splitlinesAux]
    | cons l2 ls2 =>
      have hj : joinSep '\n' (l :: l2 :: ls2) ++ ['\n']
          = l ++ '\n' :: (joinSep '\n' (l2 :: ls2) ++ ['\n']) := by
        simp [joinSep]
      show splitlinesAux (joinSep '\n' (l :: l2 :: ls2) ++ ['\n']) [] = l :: l2 :: ls2
      rw [hj, splitlinesAux_append_newline l [] _ (hbf l (by simp))]
      have ih2 := ih (by simp) (fun x hx => hbf x (List.mem_cons_of_mem l hx))
      simpa [splitlines] using ih2

theorem getLast?_mem_of_eq {l : List Char} {c : Char} (h : l.getLast? = some c) :
    c ∈ l := by
  induction l with
  | nil => simp at h
  | cons a t ih =>
    cases t with
    | nil =>
      simp at h
      simp [h]
    | cons b t2 =>
      rw [List.getLast?_cons_cons] at h
      exact List.mem_cons_of_mem a (ih h)

theorem joinSep_cons_ne_nil (l2 : List Char) (ls : List (List Char))
    (h : l2 ≠ []) : joinSep '\n' (l2 :: ls) ≠ [] := by
  cases ls with
  | nil => simpa [joinSep] using h
  | cons l3 ls3 => simp [joinSep]

/-- The last character of a `"\n".join` of non-empty break-free lines is
never a line-break character. -/
theorem joinSep_getLast_not_break (ls : List (List Char))
    (h : ∀ l ∈ ls, breakFree l ∧ l ≠ []) :
    ∀ c, (joinSep '\n' ls).getLast? = some c → isLineBreak c = false := by
  induction ls with
  | nil => intro c hc; simp [joinSep] at hc
  | cons l ls ih =>
    intro c hc
    cases ls with
    | nil =>
      simp [joinSep] at hc
      exact (h l (by simp)).1 c (getLast?_mem_of_eq hc)
    | cons l2 ls2 =>
      have hne : joinSep '\n' (l2 :: ls2) ≠ [] :=
        joinSep_cons_ne_nil l2 ls2 (h l2 (by simp)).2
      have hj : joinSep '\n' (l :: l2 :: ls2) = l ++ '\n' :: joinSep '\n' (l2 :: ls2) := by
        simp [joinSep]
      rw [hj, List.getLast?_append_of_ne_nil _ (by simp)] at hc
      rcases List.exists_cons_of_ne_nil hne with ⟨d, t, hdt⟩
      rw [hdt, List.getLast?_cons_cons] at hc
      refine ih (fun x hx => h x (List.mem_cons_of_mem l hx)) c ?_
      rw [hdt]
      exact hc

/-- A line kept by the blank-line filter is non-empty. -/
theorem keepLine_ne_nil {l : List Char} (h : keepLine l = true) : l ≠ [] := by
  intro he
  subst he
  simp [keepLine, blankL, pyStrip] at h

/-- `collapseGo` over a leading all-blank segment just counts it. -/
theorem collapseGo_blank_append (run : List (List Char)) :
    ∀ (rest : List (List Char)) (b : Nat), (∀ l ∈ run, blankL l = true) →
      collapseGo (run ++ rest) b = collapseGo rest (b + run.length) := by
  induction run with
  | nil => intro rest b _; simp
  | cons l run ih =>
    intro rest b hrun
    have hl : blankL l = true := hrun l (by simp)
    have hrec := ih rest (b + 1) (fun x hx => hrun x (List.mem_cons_of_mem l hx))
    have hstep : collapseGo ((l :: run) ++ rest) b = collapseGo (run ++ rest) (b + 1) := by
      simp [collapseGo, hl]
    rw [hstep, hrec]
    congr 1
    simp only [List.length_cons]
    omega

/-- Pending blank lines are flushed before a non-blank line or at the
end of the list: a run of length `> 1` is re-emitted as empty lines, a
shorter run is dropped. -/
theorem collapseGo_flush (rest : List (List Char)) (b : Nat)
    (h : ∀ l, rest.head? = some l → blankL l = false) :
    collapseGo rest b =
      (if b > 1 then List.replicate b [] else []) ++ collapseGo rest 0 := by
  cases rest with
  | nil => simp [collapseGo]
  | cons l ls =>
    have hl : blankL l = false := h l (by simp)
    simp [collapseGo, hl]

theorem head_dropWhile_not_blank (ls : List (List Char)) :
    ∀ l, (ls.dropWhile blankL).head? = some l → blankL l = false := by
  induction ls with
  | nil => intro l h; simp [List.dropWhile] at h
  | cons a t ih =>
    intro l h
    by_cases ha : blankL a
    · rw [List.dropWhile_cons_of_pos ha] at h
      exact ih l h
    · rw [List.dropWhile_cons_of_neg ha] at h
      simp at h
      subst h
      simpa using ha

theorem length_dropWhile_le_self (p : List Char → Bool) (ls : List (List Char)) :
    (ls.dropWhile p).length ≤ ls.length := by
  induction ls with
  | nil => simp
  | cons a t ih =>
    by_cases ha : p a
    · rw [List.dropWhile_cons_of_pos ha]
      simp only [List.length_cons]
      omega
    · rw [List.dropWhile_cons_of_neg ha]

theorem collapseGo_head_not_blank (ls : List (List Char))
    (h : ∀ l, ls.head? = some l → blankL l = false) :
    ∀ l, (collapseGo ls 0).head? = some l → blankL l = false := by
  cases ls with
  | nil => intro l hl; simp [collapseGo] at hl
  | cons a t =>
    intro l hl
    have ha : blankL a = false := h a (by simp)
    simp [collapseGo, ha] at hl
    subst hl
    exact ha

/-- `collapseGo _ 0` is idempotent: a second scan leaves the cleaned
line list unchanged (every surviving blank run has length `≥ 2` and
consists of empty lines, which are preserved again). -/
theorem collapseGo_idem : ∀ ls : List (List Char),
    collapseGo (collapseGo ls 0) 0 = collapseGo ls 0
  | [] => by simp [collapseGo]
  | l :: ls => by
    by_cases hl : blankL l
    · have hsplit : l :: ls = (l :: ls).takeWhile blankL ++ (l :: ls).dropWhile blankL :=
        (List.takeWhile_append_dropWhile blankL (l :: ls)).symm
      set run := (l :: ls).takeWhile blankL with hrun
      set rest := (l :: ls).dropWhile blankL with hrest
      have hrunb : ∀ x ∈ run, blankL x = true := fun x hx => List.mem_takeWhile_imp hx
      have hresth : ∀ x, rest.head? = some x → blankL x = false :=
        head_dropWhile_not_blank (l :: ls)
      have hrestlen : rest.length < (l :: ls).length := by
        have heq : rest = ls.dropWhile blankL := by
          rw [hrest, List.dropWhile_cons_of_pos hl]
        have := length_dropWhile_le_self blankL ls
        rw [heq]
        simp only [List.length_cons]
        omega
      have h1 : collapseGo (l :: ls) 0 =
          (if run.length > 1 then List.replicate run.length [] else []) ++
            collapseGo rest 0 := by
        conv_lhs => rw [hsplit]
        rw [collapseGo_blank_append run rest 0 hrunb]
        rw [Nat.zero_add]
        rw [collapseGo_flush rest run.length hresth]
      by_cases hlen : run.length > 1
      · rw [h1, if_pos hlen]
        have hrep : ∀ x ∈ List.replicate run.length ([] : List Char), blankL x = true := by
          intro x hx
          rw [List.eq_of_mem_replicate hx]
          simp [blankL, pyStrip]
        rw [collapseGo_blank_append _ _ 0 hrep]
        rw [List.length_replicate, Nat.zero_add]
        rw [collapseGo_flush (collapseGo rest 0) run.length
              (collapseGo_head_not_blank rest hresth)]
        rw [if_pos hlen]
        rw [collapseGo_idem rest]
      · rw [h1, if_neg hlen]
        simp only [List.nil_append]
        exact collapseGo_idem rest
    · have h1 : collapseGo (l :: ls) 0 = l :: collapseGo ls 0 := by
        simp [collapseGo, hl]
      rw [h1]
      have h2 : collapseGo (l :: collapseGo ls 0) 0 = l :: collapseGo (collapseGo ls 0) 0 := by
        simp [collapseGo, hl]
      rw [h2, collapseGo_idem ls]
  termination_by ls => ls.length
  decreasing_by
    · exact hrestlen
    · exact hrestlen
    · simp

/-- Every line in the output of `collapseGo` is break-free when the
input lines are (the inserted lines are empty, hence break-free). -/
theorem collapseGo_breakFree : ∀ (ls : List (List Char)) (b : Nat),
    (∀ l ∈ ls, breakFree l) → ∀ l ∈ collapseGo ls b, breakFree l
  | [], b => by
    intro _ l hl
    simp only [collapseGo] at hl
    by_cases hb : b > 1
    · rw [if_pos hb] at hl
      rw [List.eq_of_mem_replicate hl]
      intro c hc
      simp at hc
    · rw [if_neg hb] at hl
      simp at hl
  | a :: t, b => by
    intro h l hl
    by_cases ha : blankL a
    · simp only [collapseGo, ha, if_pos] at hl
      exact collapseGo_breakFree t (b + 1) (fun x hx => h x (List.mem_cons_of_mem a hx)) l hl
    · have ha2 : blankL a = false := by simpa using ha
      simp only [collapseGo, ha2, Bool.false_eq_true, if_false] at hl
      rcases List.mem_append.mp hl with hm | hm
      · by_cases hb : b > 1
        · rw [if_pos hb] at hm
          rw [List.eq_of_mem_replicate hm]
          intro c hc
          simp at hc
        · rw [if_neg hb] at hm
          simp at hm
      · rcases List.mem_cons.mp hm with hm | hm
        · subst hm
          exact h l (by simp)
        · exact collapseGo_breakFree t 0 (fun x hx => h x (List.mem_cons_of_mem a hx)) l hm

/-! ## String helpers

Executable models of the library string operations used by `juyo`
(`str.startswith` shapes inside `urljoin`, `str.lower`, `%02d` / `%Y`
formatting, `PurePosixPath.name`, joining path segments, and the
substring search performed by `re.search(re.escape(...), html)`). -/

/-- Does the first list start with the second one? -/
def listStartsWith : List Char → List Char → Bool
  | _, [] => true
  | [], _ :: _ => false
  | a :: as, b :: bs => a = b && listStartsWith as bs

/-- Substring occurrence test: `re.search(re.escape(needle), hay)` on a
fully escaped pattern succeeds exactly when `needle` occurs in `hay`. -/
def containsSub : List Char → List Char → Bool
  | hay, needle =>
    listStartsWith hay needle ||
      match hay with
      | [] => false
      | _ :: t => containsSub t needle

/-- `str.startswith` on whole strings. -/
def strStartsWith (s pre : String) : Bool :=
  listStartsWith s.data pre.data

/-- Characters of the host part: everything up to the first `/`. -/
def takeUntilSlash : List Char → List Char
  | [] => []
  | c :: t => if c = '/' then [] else c :: takeUntilSlash t

/-- `scheme://host` of an absolute URL (no slash in the scheme part of
the URLs used by this module). -/
def urlOrigin (base : String) : String :=
  if strStartsWith base "https://" then
    String.mk ("https://".data ++ takeUntilSlash (base.data.drop 8))
  else if strStartsWith base "http://" then
    String.mk ("http://".data ++ takeUntilSlash (base.data.drop 7))
  else base

/-- Model of `urllib.parse.urljoin` restricted to the reference shapes
this module produces: every base URL is absolute and ends in `/`, and
the second argument is an absolute URL, a root-relative path (leading
`/`, resolved against the scheme and host of the base), or a relative
path (appended to the base, whose last segment is already empty). -/
def urljoin (base rel : String) : String :=
  if strStartsWith rel "https://" || strStartsWith rel "http://" then rel
  else if strStartsWith rel "/" then urlOrigin base ++ rel
  else base ++ rel

/-- `str.lower` (the encoding names handled here are ASCII). -/
def lowerStr (s : String) : String :=
  String.mk (s.data.map Char.toLower)

/-- Python's `x or d` for an optional string: the default is used when
the value is missing (`None`) or empty (falsy). -/
def pyOrStr (x : Option String) (d : String) : String :=
  match x with
  | none => d
  | some s => if s = "" then d else s

/-- `f"{n:02d}"`. -/
def pad2 (n : Nat) : String :=
  if n < 10 then "0" ++ toString n else toString n

/-- `f"{y:%Y}"`-style four-digit year (the years reaching this module
come from `datetime.date`, whose years are 1–9999). -/
def pad4 (n : Nat) : String :=
  if n < 10 then "000" ++ toString n
  else if n < 100 then "00" ++ toString n
  else if n < 1000 then "0" ++ toString n
  else toString n

/-- Last `/`-separated component of a ZIP member name, as computed by
`Path(member.filename).name` for the non-directory members processed by
the loop (their names do not end in `/`). -/
def pathNameAux : List Char → List Char → List Char
  | [], acc => acc.reverse
  | c :: t, acc => if c = '/' then pathNameAux t [] else pathNameAux t (c :: acc)

/-- `Path(member.filename).name`. -/
def pathName (s : String) : String :=
  String.mk (pathNameAux s.data [])

/-- `str(Path(seg0) / seg1 / ...)`: segments joined with `/`. -/
def pathStr (segs : List String) : String :=
  String.mk (joinSep '/' (segs.map String.data))

/-! ## Data model of `epco.juyo` -/

/-- A `datetime.date` value (year, month, day). -/
structure PyDate where
  year : Nat
  month : Nat
  day : Nat
deriving DecidableEq

/-- The runtime type of the `date` argument of `juyo` (lines 53-58):
an ISO string, a `datetime.datetime` (whose `.date()` is taken), a
`datetime.date`, or a value of any other type. -/
inductive DateInput
  | str (s : String)
  | datetime (y m d : Nat)
  | date (y m d : Nat)
  | other
deriving DecidableEq

/-- The exceptions `juyo` can raise, one constructor per `raise` site /
library failure mode: `typeError` (line 58), `valueErrorDate`
(`date.fromisoformat` on a bad string), `valueErrorArea` (line 62),
`valueErrorNoLink` (line 126, the resource-not-found error),
`httpError` (`raise_for_status`), `decodeError` (`bytes.decode`:
unknown codec or invalid byte sequence), `badZip` (`ZipFile` on
non-archive bytes). -/
inductive ScrapeError
  | typeError
  | valueErrorDate
  | valueErrorArea
  | valueErrorNoLink
  | httpError (status : Nat) (url : String)
  | decodeError
  | badZip
deriving DecidableEq

/-- A `requests` response: status code, raw body bytes (`res.content`)
and the text view used for the HTML page (`res.text`). -/
structure HttpResp where
  status : Nat
  content : List Nat
  text : String
deriving DecidableEq

/-- One entry of `ZipFile.infolist()` together with the bytes read from
it (`zf.open(member).read()`). -/
structure ZipMember where
  filename : String
  data : List Nat
deriving DecidableEq

/-- `ZipInfo.is_dir()`: the archived name ends with `/`. -/
def zipIsDir (m : ZipMember) : Bool :=
  m.filename.data.getLast? = some '/'

/-- The library behaviour `juyo` depends on, supplied as oracles:
ISO date parsing, HTTP GET, `chardet.detect(...)["encoding"]`,
`bytes.decode(encoding)` (`none` models a raised `LookupError` /
`UnicodeDecodeError`), and ZIP extraction (`none` models `BadZipFile`).
-/
structure Oracles where
  parseIso : String → Option PyDate
  http : String → HttpResp
  detect : List Nat → Option String
  decodeBytes : String → List Nat → Option (List Char)
  unzip : List Nat → Option (List ZipMember)

/-- The observable side effects of one `juyo` call, in program order. -/
inductive Effect
  | httpGet (url : String)
  | mkdir (path : List String)
  | writeFile (path : List String) (content : List Char)
deriving DecidableEq

/-! ## The `juyo` method -/

/-- `BASE_URLS.get(area)` (lines 22-28, 60). -/
def baseUrls (area : String) : Option String :=
  if area = "hokkaido" then some "https://denkiyoho.hepco.co.jp/"
  else if area = "tohoku" then some "https://setsuden.nw.tohoku-epco.co.jp/"
  else if area = "tokyo" then some "https://www.tepco.co.jp/forecast/"
  else if area = "chubu" then some "https://powergrid.chuden.co.jp/denkiyoho/"
  else if area = "hokuriku" then some "https://www.rikuden.co.jp/nw/denki-yoho/csv/"
  else none

/-- The `start_months` dict of line 110.  `datetime.date` guarantees
`month ∈ 1..12`, exactly the keys of the dict; the catch-all `0` is a
formal junk value for the months a Python date can never carry. -/
def startMonths (m : Nat) : Nat :=
  match m with
  | 1 => 1 | 2 => 1 | 3 => 1
  | 4 => 4 | 5 => 4 | 6 => 4
  | 7 => 7 | 8 => 7 | 9 => 7
  | 10 => 10 | 11 => 10 | 12 => 10
  | _ => 0

/-- The `end_months` dict of line 111 (same domain remark). -/
def endMonths (m : Nat) : Nat :=
  match m with
  | 1 => 3 | 2 => 3 | 3 => 3
  | 4 => 6 | 5 => 6 | 6 => 6
  | 7 => 9 | 8 => 9 | 9 => 9
  | 10 => 12 | 11 => 12 | 12 => 12
  | _ => 0

/-- Line 116: `f"{year}{start_month:02d}-{end_month:02d}_{area}_denkiyohou.zip"`. -/
def quarterFilename (year month : Nat) (area : String) : String :=
  toString year ++ pad2 (startMonths month) ++ "-" ++ pad2 (endMonths month) ++
    "_" ++ area ++ "_denkiyohou.zip"

/-- Lines 133-134: `area_map.get(area, area)`. -/
def areaPath (area : String) : String :=
  if area = "hokkaido" then "hok"
  else if area = "tokyo" then "tok"
  else if area = "chubu" then "chb"
  else area

/-- Line 135: `Path("csv") / "juyo" / area_path / f"{year}"`. -/
def zipTargetDir (area : String) (year : Nat) : List String :=
  ["csv", "juyo", areaPath area, toString year]

/-- Line 76 / 95: `chardet.detect(...).get("encoding") or "shift_jis"`. -/
def directEncoding (detected : Option String) : String :=
  pyOrStr detected "shift_jis"

/-- Line 148: `(chardet.detect(data).get("encoding") or "").lower()`. -/
def zipMemberEncoding (detected : Option String) : String :=
  lowerStr (pyOrStr detected "")

/-- Lines 150-172: the per-area cleaning applied to a decoded ZIP
member (`collapse` for tokyo, `strip` for hokkaido and chubu; the final
branch is unreachable because only those three areas reach the loop). -/
def normalizeFor (area : String) (t : List Char) : List Char :=
  if area = "tokyo" then collapseSingleBlankLines t
  else if area = "hokkaido" ∨ area = "chubu" then stripAllBlankLines t
  else t

/-- Line 144: destination of a member inside the target directory. -/
def memberDest (targetDir : List String) (m : ZipMember) : List String :=
  targetDir ++ [pathName m.filename]

/-- The member loop of lines 140-175: directories are skipped, each
file member is read, decoded with the detected encoding, cleaned and
written; a decode failure propagates out of the loop (files already
written stay written, so earlier effects are kept). -/
def processMembers (o : Oracles) (area : String) (targetDir : List String) :
    List ZipMember → Except ScrapeError (List String) × List Effect
  | [] => (Except.ok [], [])
  | m :: ms =>
    if zipIsDir m then processMembers o area targetDir ms
    else
      let encoding := zipMemberEncoding (o.detect m.data)
      match o.decodeBytes encoding m.data with
      | none => (Except.error ScrapeError.decodeError, [])
      | some text =>
        let text2 := normalizeFor area text
        let dest := memberDest targetDir m
        match processMembers o area targetDir ms with
        | (Except.ok paths, effs) =>
          (Except.ok (pathStr dest :: paths), Effect.writeFile dest text2 :: effs)
        | (Except.error e, effs) =>
          (Except.error e, Effect.writeFile dest text2 :: effs)

/-- Lines 130-177: download the resolved archive, create the target
directory and extract every member. -/
def juyoZipDownload (o : Oracles) (area : String) (year : Nat) (zipUrl : String)
    (pre : List Effect) : Except ScrapeError (List String) × List Effect :=
  let zres := o.http zipUrl
  let pre2 := pre ++ [Effect.httpGet zipUrl]
  if 400 ≤ zres.status then (Except.error (ScrapeError.httpError zres.status zipUrl), pre2)
  else
    let dir := zipTargetDir area year
    let pre3 := pre2 ++ [Effect.mkdir dir]
    match o.unzip zres.content with
    | none => (Except.error ScrapeError.badZip, pre3)
    | some members =>
      let r := processMembers o area dir members
      (r.1, pre3 ++ r.2)

/-- Lines 103-128: resolve the archive URL (tokyo and chubu directly;
hokkaido through the `area_download.html` lookup page and the literal
pattern `area/data/zip/<filename>`), then download and extract. -/
def juyoZip (o : Oracles) (date : PyDate) (area : String) (baseUrl : String) :
    Except ScrapeError (List String) × List Effect :=
  if area = "tokyo" then
    let filename := toString date.year ++ pad2 date.month ++ "_power_usage.zip"
    juyoZipDownload o area date.year (urljoin baseUrl ("html/images/" ++ filename)) []
  else if area = "chubu" then
    let filename := toString date.year ++ pad2 date.month ++ "_power_usage.zip"
    juyoZipDownload o area date.year
      (urljoin baseUrl ("/denki_yoho_content_data/download_csv/" ++ filename)) []
  else
    let filename := quarterFilename date.year date.month area
    let pageUrl := urljoin baseUrl "area_download.html"
    let res := o.http pageUrl
    if 400 ≤ res.status then
      (Except.error (ScrapeError.httpError res.status pageUrl), [Effect.httpGet pageUrl])
    else
      let pattern := "area/data/zip/" ++ filename
      if containsSub res.text.data pattern.data then
        juyoZipDownload o area date.year (urljoin baseUrl pattern) [Effect.httpGet pageUrl]
      else
        (Except.error ScrapeError.valueErrorNoLink, [Effect.httpGet pageUrl])

/-- Lines 66-83: the tohoku branch (yearly CSV, no year directory). -/
def juyoTohoku (o : Oracles) (date : PyDate) (baseUrl : String) :
    Except ScrapeError (List String) × List Effect :=
  let csvName := "juyo_" ++ toString date.year ++ "_tohoku.csv"
  let csvUrl := urljoin baseUrl ("common/demand/" ++ csvName)
  let res := o.http csvUrl
  if 400 ≤ res.status then
    (Except.error (ScrapeError.httpError res.status csvUrl), [Effect.httpGet csvUrl])
  else
    let dir := ["csv", "juyo", "toh"]
    let dest := dir ++ [csvName]
    let encoding := directEncoding (o.detect res.content)
    match o.decodeBytes encoding res.content with
    | none => (Except.error ScrapeError.decodeError, [Effect.httpGet csvUrl, Effect.mkdir dir])
    | some text =>
      let cleaned := stripAllBlankLines text
      (Except.ok [pathStr dest],
        [Effect.httpGet csvUrl, Effect.mkdir dir, Effect.writeFile dest cleaned])

/-- Lines 85-101: the hokuriku branch (dated CSV under a year directory). -/
def juyoHokuriku (o : Oracles) (date : PyDate) (baseUrl : String) :
    Except ScrapeError (List String) × List Effect :=
  let csvName := "juyo_05_" ++ pad4 date.year ++ pad2 date.month ++ pad2 date.day ++ ".csv"
  let csvUrl := urljoin baseUrl csvName
  let res := o.http csvUrl
  if 400 ≤ res.status then
    (Except.error (ScrapeError.httpError res.status csvUrl), [Effect.httpGet csvUrl])
  else
    let dir := ["csv", "hrk", "hrk", toString date.year]
    let dest := dir ++ [csvName]
    let encoding := directEncoding (o.detect res.content)
    match o.decodeBytes encoding res.content with
    | none => (Except.error ScrapeError.decodeError, [Effect.httpGet csvUrl, Effect.mkdir dir])
    | some text =>
      let cleaned := stripAllBlankLines text
      (Except.ok [pathStr dest],
        [Effect.httpGet csvUrl, Effect.mkdir dir, Effect.writeFile dest cleaned])

/-- Lines 53-58: normalization of the `date` argument. -/
def resolveDate (o : Oracles) : DateInput → Except ScrapeError PyDate
  | DateInput.str s =>
    match o.parseIso s with
    | some d => Except.ok d
    | none => Except.error ScrapeError.valueErrorDate
  | DateInput.datetime y m d => Except.ok ⟨y, m, d⟩
  | DateInput.date y m d => Except.ok ⟨y, m, d⟩
  | DateInput.other => Except.error ScrapeError.typeError

/-- The whole of `epco.juyo(date, area)`: result (the returned path
list, or the exception raised) together with the ordered list of
observable effects performed before returning or raising. -/
def juyo (o : Oracles) (dateArg : DateInput) (area : String) :
    Except ScrapeError (List String) × List Effect :=
  match resolveDate o dateArg with
  | Except.error e => (Except.error e, [])
  | Except.ok date =>
    match baseUrls area with
    | none => (Except.error ScrapeError.valueErrorArea, [])
    | some baseUrl =>
      if area = "tohoku" then juyoTohoku o date baseUrl
      else if area = "hokuriku" then juyoHokuriku o date baseUrl
      else juyoZip o date area baseUrl

/-- Replay of a list of effects against an empty file system: the
content found at `p` afterwards (later writes overwrite earlier ones). -/
def replayFS : List Effect → List String → Option (List Char)
  | [], _ => none
  | Effect.writeFile q c :: es, p =>
    match replayFS es p with
    | some c2 => some c2
    | none => if q = p then some c else none
  | _ :: es, p => replayFS es p

instance {ε α : Type} [DecidableEq ε] [DecidableEq α] : DecidableEq (Except ε α) := by
  intro x y
  cases x <;> cases y
  case error.error a b =>
    exact if h : a = b then Decidable.isTrue (by rw [h]) else Decidable.isFalse (by simp [h])
  case ok.ok a b =>
    exact if h : a = b then Decidable.isTrue (by rw [h]) else Decidable.isFalse (by simp [h])
  case error.ok a b => exact Decidable.isFalse (by simp)
  case ok.error a b => exact Decidable.isFalse (by simp)

/-! ## Helper lemmas about the member loop and the branches of `juyo` -/

/-- Every file written by the member loop sits directly in the target
directory under the basename of the member. -/
theorem processMembers_writes (o : Oracles) (area : String) (dir : List String) :
    ∀ (ms : List ZipMember) (p : List String) (c : List Char),
      Effect.writeFile p c ∈ (processMembers o area dir ms).2 →
      ∃ m, m ∈ ms ∧ zipIsDir m = false ∧ p = dir ++ [pathName m.filename]
  | [], p, c => by
    intro h
    simp [processMembers] at h
  | m :: ms, p, c => by
    intro h
    by_cases hd : zipIsDir m
    · simp only [processMembers, hd, if_pos] at h
      rcases processMembers_writes o area dir ms p c h with ⟨m2, hm2, hd2, hp2⟩
      exact ⟨m2, List.mem_cons_of_mem m hm2, hd2, hp2⟩
    · have hd2 : zipIsDir m = false := by simpa using hd
      simp only [processMembers, hd2, Bool.false_eq_true, if_false] at h
      rcases hdec : o.decodeBytes (zipMemberEncoding (o.detect m.data)) m.data with _ | text
      · rw [hdec] at h
        simp at h
      · rw [hdec] at h
        rcases hrec : processMembers o area dir ms with ⟨r, effs⟩
        rw [hrec] at h
        have hmem : Effect.writeFile p c ∈
            Effect.writeFile (memberDest dir m) (normalizeFor area text) :: effs := by
          cases r <;> simpa using h
        rcases List.mem_cons.mp hmem with hh | hh
        · refine ⟨m, by simp, hd2, ?_⟩
          have := (Effect.writeFile.injEq _ _ _ _).mp hh
          rw [this.1]
          rfl
        · have : Effect.writeFile p c ∈ (processMembers o area dir ms).2 := by
            rw [hrec]
            exact hh
          rcases processMembers_writes o area dir ms p c this with ⟨m2, hm2, hdd, hpp⟩
          exact ⟨m2, List.mem_cons_of_mem m hm2, hdd, hpp⟩

/-- The member loop ignores directory members entirely. -/
theorem processMembers_skip_dirs (o : Oracles) (area : String) (dir : List String) :
    ∀ ms : List ZipMember,
      processMembers o area dir ms
        = processMembers o area dir (ms.filter (fun m => !zipIsDir m)) := by
  intro ms
  induction ms with
  | nil => rfl
  | cons m ms ih =>
    by_cases hd : zipIsDir m
    · rw [List.filter_cons_of_neg (by simpa using hd)]
      simp only [processMembers, hd, if_pos]
      exact ih
    · rw [List.filter_cons_of_pos (by simpa using hd)]
      have hd2 : zipIsDir m = false := by simpa using hd
      simp only [processMembers, hd2, Bool.false_eq_true, if_false]
      rw [ih]

/-- Later writes to the same path overwrite earlier ones. -/
theorem replayFS_last_write (effs : List Effect) (p : List String) (c : List Char) :
    replayFS (effs ++ [Effect.writeFile p c]) p = some c := by
  induction effs with
  | nil => simp [replayFS]
  | cons e es ih =>
    cases e with
    | writeFile q c2 =>
      simp only [List.cons_append, replayFS, List.append_eq, ih]
    | httpGet u => simpa [replayFS] using ih
    | mkdir d => simpa [replayFS] using ih

/-- Writes of the archive branch all land in
`csv/juyo/<code>/<year>/<basename>`. -/
theorem juyoZipDownload_writes (o : Oracles) (area : String) (year : Nat)
    (zipUrl : String) (pre : List Effect)
    (hpre : ∀ (p : List String) (c : List Char), Effect.writeFile p c ∉ pre) :
    ∀ p c, Effect.writeFile p c ∈ (juyoZipDownload o area year zipUrl pre).2 →
      ∃ f, p = ["csv", "juyo", areaPath area, toString year, f] := by
  intro p c h
  simp only [juyoZipDownload] at h
  by_cases hst : 400 ≤ (o.http zipUrl).status
  · rw [if_pos hst] at h
    simp only [List.mem_append, List.mem_singleton] at h
    rcases h with h | h
    · exact absurd h (hpre p c)
    · simp at h
  · rw [if_neg hst] at h
    rcases hz : o.unzip (o.http zipUrl).content with _ | members
    · rw [hz] at h
      simp only [List.mem_append, List.mem_singleton] at h
      rcases h with (h | h) | h
      · exact absurd h (hpre p c)
      · simp at h
      · simp at h
    · rw [hz] at h
      simp only [List.mem_append, List.mem_singleton] at h
      rcases h with ((h | h) | h) | h
      · exact absurd h (hpre p c)
      · simp at h
      · simp at h
      · rcases processMembers_writes o area (zipTargetDir area year) members p c h with
          ⟨m, _, _, hp⟩
        exact ⟨pathName m.filename, by simpa [zipTargetDir] using hp⟩

/-- Writes of `juyoZip` (tokyo, chubu or the hokkaido lookup) all land
in `csv/juyo/<code>/<year>/<basename>`. -/
theorem juyoZip_writes (o : Oracles) (date : PyDate) (area : String) (baseUrl : String) :
    ∀ p c, Effect.writeFile p c ∈ (juyoZip o date area baseUrl).2 →
      ∃ f, p = ["csv", "juyo", areaPath area, toString date.year, f] := by
  intro p c h
  simp only [juyoZip] at h
  by_cases ht : area = "tokyo"
  · rw [if_pos ht] at h
    exact juyoZipDownload_writes o area date.year _ [] (by simp) p c h
  · rw [if_neg ht] at h
    by_cases hc : area = "chubu"
    · rw [if_pos hc] at h
      exact juyoZipDownload_writes o area date.year _ [] (by simp) p c h
    · rw [if_neg hc] at h
      by_cases hst : 400 ≤ (o.http (urljoin baseUrl "area_download.html")).status
      · rw [if_pos hst] at h
        simp at h
      · rw [if_neg hst] at h
        by_cases hfound : containsSub
            (o.http (urljoin baseUrl "area_download.html")).text.data
            ("area/data/zip/" ++ quarterFilename date.year date.month area).data
        · rw [if_pos hfound] at h
          exact juyoZipDownload_writes o area date.year _ _ (by simp) p c h
        · rw [if_neg hfound] at h
          simp at h

/-- The only write of the tohoku branch goes to
`csv/juyo/toh/juyo_<year>_tohoku.csv` (no year directory). -/
theorem juyoTohoku_writes (o : Oracles) (date : PyDate) (baseUrl : String) :
    ∀ p c, Effect.writeFile p c ∈ (juyoTohoku o date baseUrl).2 →
      p = ["csv", "juyo", "toh", "juyo_" ++ toString date.year ++ "_tohoku.csv"] := by
  intro p c h
  simp only [juyoTohoku] at h
  by_cases hst : 400 ≤ (o.http (urljoin baseUrl
      ("common/demand/" ++ ("juyo_" ++ toString date.year ++ "_tohoku.csv")))).status
  · rw [if_pos hst] at h
    simp at h
  · rw [if_neg hst] at h
    rcases hdec : o.decodeBytes _ _ with _ | text
    · rw [hdec] at h
      simp at h
    · rw [hdec] at h
      simp at h
      exact h.1

/-- The only write of the hokuriku branch goes to
`csv/hrk/hrk/<year>/juyo_05_<YYYYMMDD>.csv`. -/
theorem juyoHokuriku_writes (o : Oracles) (date : PyDate) (baseUrl : String) :
    ∀ p c, Effect.writeFile p c ∈ (juyoHokuriku o date baseUrl).2 →
      p = ["csv", "hrk", "hrk", toString date.year,
        "juyo_05_" ++ pad4 date.year ++ pad2 date.month ++ pad2 date.day ++ ".csv"] := by
  intro p c h
  simp only [juyoHokuriku] at h
  by_cases hst : 400 ≤ (o.http (urljoin baseUrl
      ("juyo_05_" ++ pad4 date.year ++ pad2 date.month ++ pad2 date.day ++ ".csv"))).status
  · rw [if_pos hst] at h
    simp at h
  · rw [if_neg hst] at h
    rcases hdec : o.decodeBytes _ _ with _ | text
    · rw [hdec] at h
      simp at h
    · rw [hdec] at h
      simp at h
      exact h.1

/-- An area accepted by `BASE_URLS.get` is one of the five keys. -/
theorem baseUrls_some {area : String} {b : String} (h : baseUrls area = some b) :
    area = "hokkaido" ∨ area = "tohoku" ∨ area = "tokyo" ∨
    area = "chubu" ∨ area = "hokuriku" := by
  by_cases h1 : area = "hokkaido"
  · exact Or.inl h1
  by_cases h2 : area = "tohoku"
  · exact Or.inr (Or.inl h2)
  by_cases h3 : area = "tokyo"
  · exact Or.inr (Or.inr (Or.inl h3))
  by_cases h4 : area = "chubu"
  · exact Or.inr (Or.inr (Or.inr (Or.inl h4)))
  by_cases h5 : area = "hokuriku"
  · exact Or.inr (Or.inr (Or.inr (Or.inr h5)))
  simp [baseUrls, h1, h2, h3, h4, h5] at h

/-! ## Concrete oracles used by witnesses and counterexamples -/

/-- Oracle for fully successful runs: every GET answers status 200 with
body byte `97` (`"a"`), detection reports `ascii`, and decoding maps
each byte to the character with that code point. -/
def oracleA : Oracles :=
  ⟨fun _ => none,
   fun _ => ⟨200, [97], "x"⟩,
   fun _ => some "ascii",
   fun _ b => some (b.map Char.ofNat),
   fun _ => none⟩

/-- Oracle whose HTML page does not contain any data link. -/
def oracleMiss : Oracles :=
  ⟨fun _ => none,
   fun _ => ⟨200, [], "no links in this page"⟩,
   fun _ => none,
   fun _ _ => none,
   fun _ => none⟩

/-- Oracle where byte-encoding detection yields no result and decoding
succeeds only under the `shift_jis` codec. -/
def oracleSJ : Oracles :=
  ⟨fun _ => none,
   fun _ => ⟨200, [97], "x"⟩,
   fun _ => none,
   fun e b => if e = "shift_jis" then some (b.map Char.ofNat) else none,
   fun _ => none⟩

/-- Oracle where detection yields no result and no codec decodes. -/
def oracleNone : Oracles :=
  ⟨fun _ => none,
   fun _ => ⟨200, [], ""⟩,
   fun _ => none,
   fun _ _ => none,
   fun _ => none⟩

/-! ## The claims -/

/-- Claim C1: for every month 1–12 the quarter lookup of lines 110-114
yields a `(startMonth, endMonth)` pair among `(1,3)`, `(4,6)`, `(7,9)`,
`(10,12)`, and the month lies in the closed range it spans. -/
theorem c1_quarter_lookup (m : Nat) (h1 : 1 ≤ m) (h2 : m ≤ 12) :
    ((startMonths m = 1 ∧ endMonths m = 3) ∨
     (startMonths m = 4 ∧ endMonths m = 6) ∨
     (startMonths m = 7 ∧ endMonths m = 9) ∨
     (startMonths m = 10 ∧ endMonths m = 12)) ∧
    startMonths m ≤ m ∧ m ≤ endMonths m := by
  interval_cases m <;> decide

/-- Witness for C1 at the concrete month 5. -/
theorem c1_quarter_lookup_witness :
    1 ≤ 5 ∧ 5 ≤ 12 ∧
    (((startMonths 5 = 1 ∧ endMonths 5 = 3) ∨
      (startMonths 5 = 4 ∧ endMonths 5 = 6) ∨
      (startMonths 5 = 7 ∧ endMonths 5 = 9) ∨
      (startMonths 5 = 10 ∧ endMonths 5 = 12)) ∧
     startMonths 5 ≤ 5 ∧ 5 ≤ endMonths 5) :=
  ⟨by decide, by decide, c1_quarter_lookup 5 (by decide) (by decide)⟩

/-- Claim C2: on 2024-05-10 the hokkaido branch resolves the archive
filename of line 116 to `202404-06_hokkaido_denkiyohou.zip`. -/
theorem c2_quarter_filename :
    quarterFilename 2024 5 "hokkaido" = "202404-06_hokkaido_denkiyohou.zip" := by
  decide

/-- Claim C3 (amended): every write of `juyo` lands in
`csv/<category>/<code>/<year>/<filename>` for hokuriku and the three
archive areas, but for tohoku in `csv/juyo/toh/<filename>` with no year
segment. -/
theorem c3_dest_path_shape (o : Oracles) (y mo dy : Nat) (area : String)
    (p : List String) (c : List Char)
    (hmem : Effect.writeFile p c ∈ (juyo o (DateInput.date y mo dy) area).2) :
    (area = "tohoku" ∧ ∃ f, p = ["csv", "juyo", "toh", f]) ∨
    (area = "hokuriku" ∧ ∃ f, p = ["csv", "hrk", "hrk", toString y, f]) ∨
    ((area = "tokyo" ∨ area = "chubu" ∨ area = "hokkaido") ∧
      ∃ f, p = ["csv", "juyo", areaPath area, toString y, f]) := by
  rcases hb : baseUrls area with _ | b
  · have hred : juyo o (DateInput.date y mo dy) area
        = (Except.error ScrapeError.valueErrorArea, []) := by
      simp [juyo, resolveDate, hb]
    rw [hred] at hmem
    simp at hmem
  · by_cases ht : area = "tohoku"
    · subst ht
      have hred : juyo o (DateInput.date y mo dy) "tohoku" = juyoTohoku o ⟨y, mo, dy⟩ b := by
        simp [juyo, resolveDate, hb]
      rw [hred] at hmem
      exact Or.inl ⟨rfl, _, juyoTohoku_writes o ⟨y, mo, dy⟩ b p c hmem⟩
    · by_cases hh : area = "hokuriku"
      · subst hh
        have hred : juyo o (DateInput.date y mo dy) "hokuriku"
            = juyoHokuriku o ⟨y, mo, dy⟩ b := by
          simp [juyo, resolveDate, hb]
        rw [hred] at hmem
        exact Or.inr (Or.inl ⟨rfl, _, juyoHokuriku_writes o ⟨y, mo, dy⟩ b p c hmem⟩)
      · have hred : juyo o (DateInput.date y mo dy) area = juyoZip o ⟨y, mo, dy⟩ area b := by
          simp [juyo, resolveDate, hb, ht, hh]
        rw [hred] at hmem
        have harea : area = "tokyo" ∨ area = "chubu" ∨ area = "hokkaido" := by
          rcases baseUrls_some hb with h | h | h | h | h
          · exact Or.inr (Or.inr h)
          · exact absurd h ht
          · exact Or.inl h
          · exact Or.inr (Or.inl h)
          · exact absurd h hh
        exact Or.inr (Or.inr ⟨harea, juyoZip_writes o ⟨y, mo, dy⟩ area b p c hmem⟩)

/-- Counterexample to C3 as stated: the 2024-05-10 tohoku run writes to
the four-segment path `csv/juyo/toh/juyo_2024_tohoku.csv`, which has no
year directory between the area code and the filename. -/
theorem c3_counterexample :
    (juyo oracleA (DateInput.date 2024 5 10) "tohoku").2
      = [Effect.httpGet
           "https://setsuden.nw.tohoku-epco.co.jp/common/demand/juyo_2024_tohoku.csv",
         Effect.mkdir ["csv", "juyo", "toh"],
         Effect.writeFile ["csv", "juyo", "toh", "juyo_2024_tohoku.csv"] "a\n".data]
    ∧ ¬ ∃ cat code f, (["csv", "juyo", "toh", "juyo_2024_tohoku.csv"] : List String)
        = ["csv", cat, code, toString 2024, f] := by
  refine ⟨by rfl, ?_⟩
  rintro ⟨cat, code, f, h⟩
  simp at h

/-- Witness for C3 at a concrete hokuriku run. -/
theorem c3_dest_path_shape_witness :
    (Effect.writeFile ["csv", "hrk", "hrk", "2024", "juyo_05_20240510.csv"] "a\n".data
        ∈ (juyo oracleA (DateInput.date 2024 5 10) "hokuriku").2) ∧
    ((("hokuriku" : String) = "tohoku" ∧
        ∃ f, ["csv", "hrk", "hrk", "2024", "juyo_05_20240510.csv"] = ["csv", "juyo", "toh", f]) ∨
    (("hokuriku" : String) = "hokuriku" ∧
        ∃ f, ["csv", "hrk", "hrk", "2024", "juyo_05_20240510.csv"]
          = ["csv", "hrk", "hrk", toString 2024, f]) ∨
    ((("hokuriku" : String) = "tokyo" ∨ ("hokuriku" : String) = "chubu" ∨
        ("hokuriku" : String) = "hokkaido") ∧
        ∃ f, ["csv", "hrk", "hrk", "2024", "juyo_05_20240510.csv"]
          = ["csv", "juyo", areaPath "hokuriku", toString 2024, f])) :=
  ⟨by decide,
   c3_dest_path_shape oracleA 2024 5 10 "hokuriku"
     ["csv", "hrk", "hrk", "2024", "juyo_05_20240510.csv"] "a\n".data (by decide)⟩

/-- Claim C10: a `date` argument of an unsupported runtime type raises
`TypeError` before any HTTP request or file-system effect. -/
theorem c10_bad_date_type (o : Oracles) (area : String) :
    juyo o DateInput.other area = (Except.error ScrapeError.typeError, []) :=
  rfl

/-- Claim C4 (amended): `StripAllBlankLines` is idempotent and its
result ends in exactly one trailing newline, for every input; the
result contains no blank line whenever the input has at least one
non-blank line (an all-blank input yields `"\n"`, whose single line is
blank). -/
theorem c4_strip_all_blank_lines (cs : List Char) :
    stripAllBlankLines (stripAllBlankLines cs) = stripAllBlankLines cs
    ∧ (stripAllBlankLines cs).getLast? = some '\n'
    ∧ (stripAllBlankLines cs).dropLast.getLast? ≠ some '\n'
    ∧ ((splitlines cs).filter keepLine ≠ [] →
        ∀ l ∈ splitlines (stripAllBlankLines cs), keepLine l = true) := by
  have hbf : ∀ l ∈ (splitlines cs).filter keepLine, breakFree l := fun l hl =>
    splitlines_breakFree cs l (List.mem_of_mem_filter hl)
  have hkeep : ∀ l ∈ (splitlines cs).filter keepLine, keepLine l = true := fun l hl =>
    List.of_mem_filter hl
  have hnn : ∀ l ∈ (splitlines cs).filter keepLine, l ≠ [] := fun l hl =>
    keepLine_ne_nil (hkeep l hl)
  by_cases hls : (splitlines cs).filter keepLine = []
  · have h0 : stripAllBlankLines cs = ['\n'] := by
      simp [stripAllBlankLines, hls, joinSep]
    refine ⟨?_, ?_, ?_, fun hne => absurd hls hne⟩
    · rw [h0]
      decide
    · rw [h0]
      rfl
    · rw [h0]
      simp
  · have hsp : splitlines (stripAllBlankLines cs) = (splitlines cs).filter keepLine :=
      splitlines_joinSep _ hls hbf
    refine ⟨?_, ?_, ?_, fun _ => by rw [hsp]; exact hkeep⟩
    · show joinSep '\n' ((splitlines (stripAllBlankLines cs)).filter keepLine) ++ ['\n']
        = stripAllBlankLines cs
      rw [hsp, List.filter_eq_self.mpr hkeep]
      rfl
    · exact List.getLast?_concat _
    · show (joinSep '\n' ((splitlines cs).filter keepLine) ++ ['\n']).dropLast.getLast?
          ≠ some '\n'
      rw [List.dropLast_concat]
      intro hcontra
      have := joinSep_getLast_not_break ((splitlines cs).filter keepLine)
        (fun l hl => ⟨hbf l hl, hnn l hl⟩) '\n' hcontra
      simp [isLineBreak] at this

/-- Counterexample to C4 as stated: on the empty input the result is
`"\n"`, whose single line (as `splitlines` reads it back) is empty, so
the "no blank line in the result" part fails for all-blank inputs. -/
theorem c4_counterexample :
    stripAllBlankLines [] = ['\n']
    ∧ splitlines (stripAllBlankLines []) = [[]]
    ∧ ¬ (∀ l ∈ splitlines (stripAllBlankLines []), keepLine l = true) := by
  decide

/-- Witness for C4 at the concrete input `"a\n\nb"`. -/
theorem c4_strip_all_blank_lines_witness :
    stripAllBlankLines (stripAllBlankLines "a\n\nb".data) = stripAllBlankLines "a\n\nb".data
    ∧ (stripAllBlankLines "a\n\nb".data).getLast? = some '\n'
    ∧ (stripAllBlankLines "a\n\nb".data).dropLast.getLast? ≠ some '\n'
    ∧ (splitlines "a\n\nb".data).filter keepLine ≠ []
    ∧ (∀ l ∈ splitlines (stripAllBlankLines "a\n\nb".data), keepLine l = true) :=
  ⟨(c4_strip_all_blank_lines "a\n\nb".data).1,
   (c4_strip_all_blank_lines "a\n\nb".data).2.1,
   (c4_strip_all_blank_lines "a\n\nb".data).2.2.1,
   by decide,
   (c4_strip_all_blank_lines "a\n\nb".data).2.2.2 (by decide)⟩

/-- Claim C5 (amended): `CollapseSingleBlankLines` deletes every
isolated single blank line; a blank run of length `≥ 2` is preserved in
position and length but its lines are re-emitted as empty lines
(`[""] * (j - i)`), not kept verbatim; and applying the function to its
own output returns that output. -/
theorem c5_collapse_single_blank_lines (cs : List Char) :
    collapseSingleBlankLines (collapseSingleBlankLines cs) = collapseSingleBlankLines cs
    ∧ (∀ (a b : List Char) (run rest : List (List Char)),
        blankL a = false → blankL b = false → (∀ l ∈ run, blankL l = true) →
        collapseGo (a :: (run ++ b :: rest)) 0 =
          a :: ((if run.length > 1 then List.replicate run.length [] else []) ++
            b :: collapseGo rest 0)) := by
  constructor
  · by_cases hout : collapseGo (splitlines cs) 0 = []
    · have h0 : collapseSingleBlankLines cs = ['\n'] := by
        simp [collapseSingleBlankLines, hout, joinSep]
      rw [h0]
      decide
    · have hbf : ∀ l ∈ collapseGo (splitlines cs) 0, breakFree l :=
        collapseGo_breakFree (splitlines cs) 0 (splitlines_breakFree cs)
      have hsp : splitlines (collapseSingleBlankLines cs) = collapseGo (splitlines cs) 0 :=
        splitlines_joinSep _ hout hbf
      show joinSep '\n' (collapseGo (splitlines (collapseSingleBlankLines cs)) 0) ++ ['\n']
          = collapseSingleBlankLines cs
      rw [hsp, collapseGo_idem]
      rfl
  · intro a b run rest ha hb hrun
    have h1 : collapseGo (a :: (run ++ b :: rest)) 0
        = a :: collapseGo (run ++ b :: rest) 0 := by
      simp [collapseGo, ha]
    have hhead : ∀ l, (b :: rest).head? = some l → blankL l = false := by
      intro l hl
      simp at hl
      rw [← hl]
      exact hb
    have h2 : collapseGo (b :: rest) 0 = b :: collapseGo rest 0 := by
      simp [collapseGo, hb]
    rw [h1, collapseGo_blank_append run (b :: rest) 0 hrun, Nat.zero_add,
        collapseGo_flush (b :: rest) run.length hhead, h2]

/-- Counterexample to C5 as stated: the blank run `" ", " "` of length
2 in `"a\n \n \nb"` is not kept unchanged — its whitespace-only lines
are replaced by empty lines. -/
theorem c5_counterexample :
    splitlines "a\n \n \nb".data = [['a'], [' '], [' '], ['b']]
    ∧ collapseGo (splitlines "a\n \n \nb".data) 0 = [['a'], [], [], ['b']]
    ∧ collapseSingleBlankLines "a\n \n \nb".data = "a\n\n\nb\n".data
    ∧ collapseSingleBlankLines "a\n \n \nb".data ≠ "a\n \n \nb\n".data := by
  decide

/-- Witness for C5 at the concrete input `"a\n\n\nb"` and the concrete
run decomposition `a = "a"`, `run = ["", ""]`, `b = "b"`, `rest = []`. -/
theorem c5_collapse_single_blank_lines_witness :
    collapseSingleBlankLines (collapseSingleBlankLines "a\n\n\nb".data)
      = collapseSingleBlankLines "a\n\n\nb".data
    ∧ blankL ['a'] = false
    ∧ blankL ['b'] = false
    ∧ (∀ l ∈ ([[], []] : List (List Char)), blankL l = true)
    ∧ collapseGo (['a'] :: ([[], []] ++ ['b'] :: [])) 0 =
        ['a'] :: ((if ([[], []] : List (List Char)).length > 1
            then List.replicate ([[], []] : List (List Char)).length [] else []) ++
          ['b'] :: collapseGo [] 0) :=
  ⟨(c5_collapse_single_blank_lines "a\n\n\nb".data).1,
   by decide, by decide, by decide,
   (c5_collapse_single_blank_lines "a\n\n\nb".data).2 ['a'] ['b'] [[], []] []
     (by decide) (by decide) (by decide)⟩

/-- `urljoin(BASE_URLS["hokkaido"], "area_download.html")`. -/
def hokkaidoPageUrl : String :=
  urljoin "https://denkiyoho.hepco.co.jp/" "area_download.html"

/-- Claim C6: when the hokkaido lookup page is fetched successfully but
the literal pattern `area/data/zip/<expected-filename>` is absent from
its markup, `juyo` raises the resource-not-found `ValueError` after a
single HTTP request: no data URL is fetched and no file is written. -/
theorem c6_missing_link (o : Oracles) (y mo dy : Nat)
    (hst : (o.http hokkaidoPageUrl).status < 400)
    (hmiss : containsSub (o.http hokkaidoPageUrl).text.data
        ("area/data/zip/" ++ quarterFilename y mo "hokkaido").data = false) :
    juyo o (DateInput.date y mo dy) "hokkaido"
      = (Except.error ScrapeError.valueErrorNoLink, [Effect.httpGet hokkaidoPageUrl]) := by
  simp only [hokkaidoPageUrl] at hst hmiss
  have hred : juyo o (DateInput.date y mo dy) "hokkaido"
      = juyoZip o ⟨y, mo, dy⟩ "hokkaido" "https://denkiyoho.hepco.co.jp/" := by
    simp [juyo, resolveDate, baseUrls]
  rw [hred]
  simp only [juyoZip]
  rw [if_neg (by decide : ¬("hokkaido" : String) = "tokyo"),
      if_neg (by decide : ¬("hokkaido" : String) = "chubu")]
  rw [if_neg (by omega :
      ¬400 ≤ (o.http (urljoin "https://denkiyoho.hepco.co.jp/" "area_download.html")).status)]
  rw [if_neg (by simpa using hmiss)]
  rfl

/-- Witness for C6: a page without any data link. -/
theorem c6_missing_link_witness :
    (oracleMiss.http hokkaidoPageUrl).status < 400
    ∧ containsSub (oracleMiss.http hokkaidoPageUrl).text.data
        ("area/data/zip/" ++ quarterFilename 2024 5 "hokkaido").data = false
    ∧ juyo oracleMiss (DateInput.date 2024 5 10) "hokkaido"
        = (Except.error ScrapeError.valueErrorNoLink, [Effect.httpGet hokkaidoPageUrl]) :=
  ⟨by decide, by decide, c6_missing_link oracleMiss 2024 5 10 (by decide) (by decide)⟩

/-- Claim C7 (amended): when byte-encoding detection yields no result,
the direct-CSV paths (tohoku, hokuriku) fall back to the fixed
`"shift_jis"` encoding, but the archive-member path (tokyo, chubu,
hokkaido) falls back to the empty encoding name, with which the decode
is then attempted — and fails. -/
theorem c7_encoding_fallback :
    directEncoding none = "shift_jis"
    ∧ zipMemberEncoding none = ""
    ∧ (∀ (o : Oracles) (area : String) (dir : List String) (mem : ZipMember)
        (rest : List ZipMember), zipIsDir mem = false → o.detect mem.data = none →
        o.decodeBytes "" mem.data = none →
        processMembers o area dir (mem :: rest)
          = (Except.error ScrapeError.decodeError, [])) := by
  refine ⟨rfl, rfl, ?_⟩
  intro o area dir mem rest hdir hdet hdec
  have henc : zipMemberEncoding (o.detect mem.data) = "" := by
    rw [hdet]
    rfl
  simp [processMembers, hdir, henc, hdec]

/-- Counterexample to C7 as stated: with detection yielding no result,
the archive path does not fall back to a Shift-JIS-family encoding: the
decode is attempted with the empty encoding name and fails, although
decoding the same bytes with `"shift_jis"` would succeed — and the
direct tohoku path with the same oracle does succeed. -/
theorem c7_counterexample :
    oracleSJ.detect [97] = none
    ∧ oracleSJ.decodeBytes "shift_jis" [97] = some ['a']
    ∧ processMembers oracleSJ "chubu" ["d"] [⟨"x.csv", [97]⟩]
        = (Except.error ScrapeError.decodeError, [])
    ∧ (juyo oracleSJ (DateInput.date 2024 5 10) "tohoku").1
        = Except.ok ["csv/juyo/toh/juyo_2024_tohoku.csv"] :=
  ⟨rfl, by rfl, by rfl, by rfl⟩

/-- Witness for C7 at a concrete undetected, undecodable member. -/
theorem c7_encoding_fallback_witness :
    zipIsDir ⟨"x.csv", [130]⟩ = false
    ∧ oracleNone.detect [130] = none
    ∧ oracleNone.decodeBytes "" [130] = none
    ∧ processMembers oracleNone "tokyo" ["d"] [⟨"x.csv", [130]⟩]
        = (Except.error ScrapeError.decodeError, []) :=
  ⟨by decide, rfl, rfl,
   c7_encoding_fallback.2.2 oracleNone "tokyo" ["d"] ⟨"x.csv", [130]⟩ []
     (by decide) rfl rfl⟩

/-- Claim C8 (amended): archive members are always text-decoded with
the detected encoding, whatever it is — the loop has no raw-byte
pass-through.  A member that fails to decode raises the decode error;
a member that decodes has its normalized text, not its raw bytes,
written. -/
theorem c8_no_passthrough (o : Oracles) (area : String) (dir : List String)
    (mem : ZipMember) (rest : List ZipMember) (hdir : zipIsDir mem = false) :
    (o.decodeBytes (zipMemberEncoding (o.detect mem.data)) mem.data = none →
      processMembers o area dir (mem :: rest)
        = (Except.error ScrapeError.decodeError, []))
    ∧ (∀ t, o.decodeBytes (zipMemberEncoding (o.detect mem.data)) mem.data = some t →
      (processMembers o area dir (mem :: rest)).2
        = Effect.writeFile (memberDest dir mem) (normalizeFor area t) ::
            (processMembers o area dir rest).2) := by
  constructor
  · intro h
    simp [processMembers, hdir, h]
  · intro t ht
    simp only [processMembers, hdir, Bool.false_eq_true, if_false, ht]
    rcases h2 : processMembers o area dir rest with ⟨r, effs⟩
    cases r <;> simp

/-- Counterexample to C8 as stated: a member whose detected encoding
(`ascii`) lies outside any trusted Japanese legacy set is decoded and
normalized — the written content differs from the member's raw bytes —
and an undecodable member raises the decode error instead of being
written through as raw bytes. -/
theorem c8_counterexample :
    processMembers oracleA "hokkaido" ["d"] [⟨"x.csv", [97, 10, 32, 10, 98]⟩]
      = (Except.ok ["d/x.csv"], [Effect.writeFile ["d", "x.csv"] "a\nb\n".data])
    ∧ "a\nb\n".data.map Char.toNat ≠ [97, 10, 32, 10, 98]
    ∧ processMembers oracleNone "tokyo" ["d"] [⟨"x.csv", [130]⟩]
      = (Except.error ScrapeError.decodeError, []) :=
  ⟨by rfl, by decide, by rfl⟩

/-- Witness for C8 at a concrete member that decodes under the
detected encoding. -/
theorem c8_no_passthrough_witness :
    zipIsDir ⟨"x.csv", [97]⟩ = false
    ∧ oracleA.decodeBytes (zipMemberEncoding (oracleA.detect [97])) [97] = some ['a']
    ∧ (processMembers oracleA "hokkaido" ["d"] [⟨"x.csv", [97]⟩]).2
        = Effect.writeFile (memberDest ["d"] ⟨"x.csv", [97]⟩) (normalizeFor "hokkaido" ['a'])
            :: (processMembers oracleA "hokkaido" ["d"] []).2 :=
  ⟨by decide, by rfl,
   (c8_no_passthrough oracleA "hokkaido" ["d"] ⟨"x.csv", [97]⟩ [] (by decide)).2 ['a'] (by rfl)⟩

/-- Claim C9: the member loop skips every directory member, writes each
file member under the target directory using only the basename of its
archived path (flattening any nested folders), two members sharing a
basename target the same destination path, and in the file-system
replay the later write to a path wins. -/
theorem c9_zip_member_flattening (o : Oracles) (area : String) (dir : List String)
    (ms : List ZipMember) :
    processMembers o area dir ms
      = processMembers o area dir (ms.filter (fun m => !zipIsDir m))
    ∧ (∀ p c, Effect.writeFile p c ∈ (processMembers o area dir ms).2 →
        ∃ m, m ∈ ms ∧ zipIsDir m = false ∧ p = dir ++ [pathName m.filename])
    ∧ (∀ m1 m2 : ZipMember, pathName m1.filename = pathName m2.filename →
        memberDest dir m1 = memberDest dir m2)
    ∧ (∀ (effs : List Effect) (p : List String) (c : List Char),
        replayFS (effs ++ [Effect.writeFile p c]) p = some c) :=
  ⟨processMembers_skip_dirs o area dir ms,
   processMembers_writes o area dir ms,
   fun m1 m2 h => by simp [memberDest, h],
   fun effs p c => replayFS_last_write effs p c⟩

/-- The member list used by the C9 witness: one directory entry and two
file entries sharing the basename `x.csv`. -/
def msW : List ZipMember :=
  [⟨"sub/", []⟩, ⟨"sub/x.csv", [97]⟩, ⟨"y/x.csv", [98]⟩]

/-- Witness for C9 on a concrete archive with a directory member and
two members sharing a basename. -/
theorem c9_zip_member_flattening_witness :
    (Effect.writeFile ["d", "x.csv"] "a\n".data
        ∈ (processMembers oracleA "chubu" ["d"] msW).2)
    ∧ (∃ m, m ∈ msW ∧ zipIsDir m = false ∧ ["d", "x.csv"] = ["d"] ++ [pathName m.filename])
    ∧ pathName "sub/x.csv" = pathName "y/x.csv"
    ∧ memberDest ["d"] ⟨"sub/x.csv", [97]⟩ = memberDest ["d"] ⟨"y/x.csv", [98]⟩
    ∧ replayFS ([] ++ [Effect.writeFile ["d", "x.csv"] "b\n".data]) ["d", "x.csv"]
        = some "b\n".data :=
  ⟨by decide,
   (c9_zip_member_flattening oracleA "chubu" ["d"] msW).2.1 ["d", "x.csv"] "a\n".data
     (by decide),
   by decide,
   (c9_zip_member_flattening oracleA "chubu" ["d"] msW).2.2.1
     ⟨"sub/x.csv", [97]⟩ ⟨"y/x.csv", [98]⟩ (by decide),
   (c9_zip_member_flattening oracleA "chubu" ["d"] msW).2.2.2
     [] ["d", "x.csv"] "b\n".data⟩

end EpcoScraper
